import Mathlib

/-!
Verification of the core of `unified-language-server`: a shallow embedding of
the workspace-aware document routing and result-translation pipeline
(`lib/index.js` and the current server module), together with theorems about
the behaviour its specification describes.

Modelling conventions:
* JavaScript optional / nullable values become `Option`.
* JavaScript string truthiness (`x || undefined`, `if (x)`) is modelled by
  testing for the empty string.
* Machine strings are Lean `String`s; lengths are counted in characters
  (the source data are ASCII URIs and ASCII document text, where JavaScript
  UTF-16 lengths coincide with character counts).
* Asynchronous callback results are modelled as explicit values; a promise
  that can only resolve is modelled as a total function (wrapped in `Except`
  when the contrast with rejection matters).
-/

namespace UnifiedLS

/-- Protocol position: zero-based line and character. The fields are integers
because the 1-based-to-0-based mapping in the source subtracts one without a
bounds check. -/
structure LspPosition where
  line : Int
  character : Int
deriving Repr, DecidableEq

/-- Protocol range: start and end positions (the source field `end` is a Lean
keyword, rendered here as `endPos`). -/
structure LspRange where
  start : LspPosition
  endPos : LspPosition
deriving Repr, DecidableEq

/-- Range used when a message has no usable location: zero-width at (0,0),
`Range.create(0, 0, 0, 0)` in the source. -/
def zeroRange : LspRange := ⟨⟨0, 0⟩, ⟨0, 0⟩⟩

/-- Diagnostic severity constants of the protocol, as used by the server. -/
inductive DiagnosticSeverity where
  | error
  | warning
  | information
  | hint
deriving Repr, DecidableEq

/-! ## Position Mapper (`lib/index.js`, `unistLocationToLspRange`)

An engine point has optional `line` and `column`; `isValidUnistPoint` in the
source additionally requires both to be integers (`Number.isInteger`), so a
present non-integer number is modelled as the absent case. -/

/-- Engine (unist) point with possibly missing coordinates, 1-based. -/
structure UnistPoint where
  line : Option Int
  column : Option Int
deriving Repr, DecidableEq

/-- Engine (unist) location with possibly missing start and end points. -/
structure UnistPosition where
  start : Option UnistPoint
  endPoint : Option UnistPoint
deriving Repr, DecidableEq

/-- Validity test of `lib/index.js`: the point exists and both coordinates are
present integers. -/
def isValidUnistPoint : Option UnistPoint → Bool
  | some p => p.line.isSome && p.column.isSome
  | none => false

/-- Mapping of `lib/index.js` from an optional engine location to a protocol
range: valid start and end map to the full range; a single valid point maps to
a zero-width range at that point; otherwise the zero range. Each mapped
coordinate is the 1-based engine coordinate minus one. -/
def unistLocationToLspRange : Option UnistPosition → LspRange
  | none => zeroRange
  | some pos =>
    match pos.start, pos.endPoint with
    | some ⟨some sl, some sc⟩, some ⟨some el, some ec⟩ =>
        ⟨⟨sl - 1, sc - 1⟩, ⟨el - 1, ec - 1⟩⟩
    | some ⟨some sl, some sc⟩, _ =>
        ⟨⟨sl - 1, sc - 1⟩, ⟨sl - 1, sc - 1⟩⟩
    | _, some ⟨some el, some ec⟩ =>
        ⟨⟨el - 1, ec - 1⟩, ⟨el - 1, ec - 1⟩⟩
    | _, _ => zeroRange

/-! ## Diagnostic Translator (current server, `vfileMessageToDiagnostic`) -/

/-- Engine point with both coordinates present, the shape handed to
`unist-util-lsp`. -/
structure UPoint where
  line : Int
  column : Int
deriving Repr, DecidableEq

/-- Conversion of `unist-util-lsp` from a 1-based engine point to a 0-based
protocol position. -/
def fromPoint (p : UPoint) : LspPosition := ⟨p.line - 1, p.column - 1⟩

/-- Place of a message in its well-formed shapes: either a full position (an
object with a `start` field) or a single point, distinguished in the source by
`'start' in place`. These are the shapes the `vfile-message` type contract
allows; the runtime model further below (`PlaceVal`) additionally covers
partial and malformed place values. -/
inductive Place where
  | position (start endPoint : UPoint)
  | point (p : UPoint)
deriving Repr, DecidableEq

/-- Replacement-hint entry of a message or diagnostic payload: a string, or a
value of any other runtime type. -/
inductive ExpectedEntry where
  | str (s : String)
  | nonString
deriving Repr, DecidableEq

/-- Shape of `message.cause` as the translator inspects it: not an object (or
null), an object without a `stack` field, or an object with a `stack`. -/
inductive JsCause where
  | nonObject
  | objectNoStack
  | objectWithStack (stack : String)
deriving Repr, DecidableEq

/-- Engine message (vfile message) with all fields the translator reads.
Optional string fields use `some ""` for present-but-empty (falsy) values. -/
structure VFileMessage where
  reason : String
  place : Option Place
  fatal : Option Bool
  ruleId : Option String
  source : Option String
  url : Option String
  expected : Option (List ExpectedEntry)
  note : Option String
  cause : Option JsCause
deriving Repr, DecidableEq

/-- Protocol diagnostic with the fields the server fills in. -/
structure Diagnostic where
  range : LspRange
  message : String
  severity : DiagnosticSeverity
  code : Option String
  source : Option String
  codeDescription : Option String
  data : Option (List ExpectedEntry)
deriving Repr, DecidableEq

/-- JavaScript `x || undefined` on an optional string: an empty string is
falsy and degrades to absent. -/
def jsTruthyString : Option String → Option String
  | some s => if s = "" then none else some s
  | none => none

/-- Translator of the current server module: builds one diagnostic per engine
message, mapping place, tri-state fatal flag, rule id, source, url, expected
list, cause stack and note exactly as the source does. -/
def vfileMessageToDiagnostic (m : VFileMessage) : Diagnostic :=
  let range :=
    match m.place with
    | some (Place.position s e) => ⟨fromPoint s, fromPoint e⟩
    | some (Place.point p) => ⟨fromPoint p, fromPoint p⟩
    | none => zeroRange
  let severity :=
    match m.fatal with
    | some true => DiagnosticSeverity.error
    | some false => DiagnosticSeverity.warning
    | none => DiagnosticSeverity.information
  let withCause :=
    match m.cause with
    | some (JsCause.objectWithStack st) => m.reason ++ "\n" ++ st
    | _ => m.reason
  let fullMessage :=
    match m.note with
    | some n => if n = "" then withCause else withCause ++ "\n" ++ n
    | none => withCause
  { range := range
    message := fullMessage
    severity := severity
    code := jsTruthyString m.ruleId
    source := jsTruthyString m.source
    codeDescription := jsTruthyString m.url
    data := m.expected }

/-! ## Configuration Cache (`getDocumentSettings`)

The JavaScript cache maps a scope URI to the in-flight promise of a
configuration fetch. Promises are modelled by identifiers; issuing a fetch is
modelled by allocating a fresh identifier and bumping a fetch counter. Nothing
removes a cache entry when its promise resolves — entries only disappear via
the invalidation paths (`onDidClose`, `onDidChangeConfiguration`) — so state
reachable between the first lookup and the fetch resolution is exactly state
where the entry is (still) present. -/

/-- Result of a settings lookup: the process-wide record when the client lacks
the scoped-configuration capability, otherwise the (pending or resolved)
promise of the per-scope fetch. -/
inductive SettingsResult where
  | globalSettings
  | pending (promiseId : Nat)
deriving Repr, DecidableEq

/-- State owned by the server: the `documentSettings` map plus bookkeeping for
promise identities and the number of configuration fetches issued. -/
structure SettingsState where
  documentSettings : List (String × Nat)
  nextPromiseId : Nat
  fetchCount : Nat
deriving Repr, DecidableEq

/-- Lookup in the `documentSettings` map (`Map.get`). -/
def lookupScope : List (String × Nat) → String → Option Nat
  | [], _ => none
  | kv :: rest, scopeUri => if kv.1 = scopeUri then some kv.2 else lookupScope rest scopeUri

/-- Model of `getDocumentSettings`: without the capability return the global
record; otherwise return the cached promise, or on a miss issue one fetch,
cache its promise and return it. -/
def getDocumentSettings (hasConfigurationCapability : Bool) (st : SettingsState)
    (scopeUri : String) : SettingsState × SettingsResult :=
  if hasConfigurationCapability = false then
    (st, SettingsResult.globalSettings)
  else
    match lookupScope st.documentSettings scopeUri with
    | some id => (st, SettingsResult.pending id)
    | none =>
        let id := st.nextPromiseId
        ({ documentSettings := st.documentSettings ++ [(scopeUri, id)]
           nextPromiseId := id + 1
           fetchCount := st.fetchCount + 1 },
         SettingsResult.pending id)

/-! ## Diagnostics Publisher (`checkDocuments`) -/

/-- Protocol text document as the server sees it: URI, caller-assigned
version, full text. -/
structure TextDocument where
  uri : String
  version : Int
  text : String
deriving Repr, DecidableEq

/-- Result file of a dispatch: the originating document URI recorded in
`file.data.lspDocumentUri` and the messages the engine attached. -/
structure VFileResult where
  lspDocumentUri : String
  messages : List VFileMessage
deriving Repr, DecidableEq

/-- One `publishDiagnostics` notification. -/
structure PublishParams where
  uri : String
  version : Option Int
  diagnostics : List Diagnostic
deriving Repr, DecidableEq

/-- One step of building a JavaScript `Map` from entries: `set` overwrites the
entry for an existing key in place, otherwise appends a new entry. -/
def jsMapSet : List (String × Int) → String → Int → List (String × Int)
  | [], k, v => [(k, v)]
  | kv :: rest, k, v =>
      if kv.1 = k then (k, v) :: rest else kv :: jsMapSet rest k v

/-- JavaScript `new Map(entries)`: later entries for the same key win. -/
def jsMapOfEntries (entries : List (String × Int)) : List (String × Int) :=
  entries.foldl (fun m kv => jsMapSet m kv.1 kv.2) []

/-- JavaScript `Map.get`. -/
def jsMapGet : List (String × Int) → String → Option Int
  | [], _ => none
  | kv :: rest, k => if kv.1 = k then some kv.2 else jsMapGet rest k

/-- Version recorded for a URI by the pre-dispatch snapshot, stated
independently of the `Map` mechanics: the version of the last batch document
with that URI (a JavaScript `Map` built from entries keeps the last one). -/
def snapshotVersion : List TextDocument → String → Option Int
  | [], _ => none
  | d :: rest, uri =>
      (snapshotVersion rest uri).or (if d.uri = uri then some d.version else none)

/-- Model of `checkDocuments`: capture each batch document version in a map
before dispatch, then, for each result file of the dispatch, publish its
translated messages tagged with the captured version for its URI. The dispatch
outcome is the `files` argument; it carries no version information, so the
published version can only come from the snapshot. -/
def checkDocuments (textDocuments : List TextDocument) (files : List VFileResult) :
    List PublishParams :=
  let documentVersions :=
    jsMapOfEntries (textDocuments.map (fun d => (d.uri, d.version)))
  files.map (fun file =>
    { uri := file.lspDocumentUri
      version := jsMapGet documentVersions file.lspDocumentUri
      diagnostics := file.messages.map (fun m => vfileMessageToDiagnostic m) })

/-! ## Workspace Registry resolution (`processDocuments`, non-empty case) -/

/-- JavaScript `s.startsWith(p)`, computed over the character data. -/
def jsStartsWith (s p : String) : Bool :=
  p.data.isPrefixOf s.data

/-- Normalization `d.replace(/[/\\]?$/, '')`: remove one trailing slash or
backslash when present. -/
def stripTrailingSep (s : String) : String :=
  match s.data.getLast? with
  | some c => if c = '/' || c = '\\' then String.mk s.data.dropLast else s
  | none => s

/-- Stable insertion of a string into a list sorted by length descending:
placed before the first strictly shorter element, so equal lengths keep their
relative order, as JavaScript stable `sort` with `b.length - a.length` does. -/
def insertByLength (x : String) : List String → List String
  | [] => [x]
  | y :: ys => if y.length < x.length then x :: y :: ys else y :: insertByLength x ys

/-- Sort by length descending (longest first), stable. -/
def sortByLengthDesc (l : List String) : List String :=
  l.foldl (fun acc x => insertByLength x acc) []

/-- Root resolution of `processDocuments` when the workspace set is non-empty:
normalize the roots, sort longest first, and return the first root `d` with
`uri.startsWith(d + '/')`. -/
def resolveRoot (workspaces : List String) (uri : String) : Option String :=
  (sortByLengthDesc (workspaces.map stripTrailingSep)).find?
    (fun d => jsStartsWith uri (d ++ "/"))

/-- Routing step of `processDocuments`: pair each document with its resolved
root; a document whose resolution fails is dropped (`if (!cwd) return`). -/
def routeDocuments (workspaces : List String) (docs : List TextDocument) :
    List (TextDocument × String) :=
  docs.filterMap (fun d => (resolveRoot workspaces d.uri).map (fun r => (d, r)))

/-! ## Engine dispatch settlement (`processWorkspace` callback) -/

/-- Message created by `file.message(error)` followed by `.fatal = true`: a
fatal message whose reason is the error text, with no location or metadata. -/
def errorToFatalMessage (error : String) : VFileMessage :=
  { reason := error
    place := none
    fatal := some true
    ruleId := none
    source := none
    url := none
    expected := none
    note := none
    cause := none }

/-- Settlement of the engine callback inside `processWorkspace`: the promise
executor has no reject path, so the result type never carries an error. On an
engine-level failure every file of the group gains the single fatal message
built from the error, and the promise resolves with the group's files. -/
def processWorkspaceSettle (engineError : Option String) (files : List VFileResult) :
    Except String (List VFileResult) :=
  match engineError with
  | some error =>
      Except.ok (files.map (fun f =>
        { f with messages := f.messages ++ [errorToFatalMessage error] }))
  | none => Except.ok files

/-! ## Text document offsets (`vscode-languageserver-textdocument`)

The protocol text document keeps the full text; `offsetAt`, `positionAt` and
`getText(range)` convert between positions and offsets. Text is modelled as a
character list with `'\n'` line terminators (carriage returns do not occur in
the fixtures the claims are about). -/

/-- Offsets at which lines start: zero, then one past every newline. -/
def lineStartsAux : List Char → Nat → List Nat
  | [], _ => []
  | c :: cs, i => if c = '\n' then (i + 1) :: lineStartsAux cs (i + 1) else lineStartsAux cs (i + 1)

/-- Line start offsets of a document (`getLineOffsets`). -/
def lineStartOffsets (text : List Char) : List Nat :=
  0 :: lineStartsAux text 0

/-- Loop of `ensureBeforeEOL`: step back over line terminators until the
offset is at the line start or past a non-terminator character. -/
def ensureBeforeEOL (text : List Char) (lineOffset : Nat) : Nat → Nat
  | 0 => 0
  | o + 1 =>
    if lineOffset < o + 1 && text.getD o ' ' == '\n' then
      ensureBeforeEOL text lineOffset o
    else o + 1

/-- Model of `TextDocument.offsetAt`: clamp the line into range, take the line
start, add the character count clamped to the next line start, and keep the
result before the end-of-line terminator. -/
def offsetAt (text : List Char) (p : LspPosition) : Nat :=
  let lineOffsets := lineStartOffsets text
  if p.line ≥ (lineOffsets.length : Int) then text.length
  else if p.line < 0 then 0
  else
    let line := p.line.toNat
    let lineOffset := lineOffsets.getD line 0
    if p.character ≤ 0 then lineOffset
    else
      let nextLineOffset :=
        if line + 1 < lineOffsets.length then lineOffsets.getD (line + 1) 0
        else text.length
      ensureBeforeEOL text lineOffset (min (lineOffset + p.character.toNat) nextLineOffset)

/-- Model of `TextDocument.getText(range)`: the substring between the offsets
of the range ends (JavaScript `substring` swaps a reversed pair). -/
def getTextRange (text : List Char) (r : LspRange) : String :=
  let a := offsetAt text r.start
  let b := offsetAt text r.endPos
  String.mk ((text.take (max a b)).drop (min a b))

/-- Model of `TextDocument.positionAt`: clamp the offset into the text, find
the last line starting at or before it, and return line index and column
within that line. -/
def positionAt (text : List Char) (offset : Nat) : LspPosition :=
  let o := min offset text.length
  let lineOffsets := lineStartOffsets text
  let line := ((lineOffsets.filter (fun s => s ≤ o)).length) - 1
  let lineOffset := lineOffsets.getD line 0
  ⟨(line : Int), (o : Int) - (lineOffset : Int)⟩

/-! ## Document Formatting (`connection.onDocumentFormatting`) -/

/-- Protocol text edit. -/
structure TextEditR where
  range : LspRange
  newText : String
deriving Repr, DecidableEq

/-- Model of the formatting handler. Inputs: the document looked up for the
request URI (`none` when the client never synchronized it) and the serialized
pipeline result for it (`none` when the dispatch returned no file for the
document — unroutable, or processor missing without fallback). The handler
returns `none` (no edit) for an unknown document, for a missing result file,
and for a result equal to the current text; otherwise one edit replacing the
span from (0,0) to the position at the end of the text. -/
def onDocumentFormatting (document : Option TextDocument) (processed : Option String) :
    Option (List TextEditR) :=
  match document with
  | none => none
  | some doc =>
    match processed with
    | none => none
    | some result =>
      if result = doc.text then none
      else
        some [{ range := ⟨⟨0, 0⟩, positionAt doc.text.data doc.text.data.length⟩
                newText := result }]

/-! ## Code Action Synthesizer (`connection.onCodeAction`) -/

/-- Diagnostic as handed back by the client in a code-action request: its
range and, when `data` is an object whose `expected` is an array, that
array. `none` covers a missing or non-object `data` and a non-array
`expected`, all of which the handler skips. -/
structure DiagnosticForAction where
  range : LspRange
  data : Option (List ExpectedEntry)
deriving Repr, DecidableEq

/-- Synthesized code action: title, the single text edit keyed by the document
URI, the quick-fix kind, and the preferred flag (absent in the source is
modelled as `false`). -/
structure CodeAction where
  title : String
  editUri : String
  edit : TextEditR
  kind : String
  isPreferred : Bool
deriving Repr, DecidableEq

/-- Zero-width test of the handler:
`start.line === end.line && start.character === end.character`. -/
def isZeroWidth (r : LspRange) : Bool :=
  r.start.line == r.endPos.line && r.start.character == r.endPos.character

/-- Title computation of the handler, mirroring the nested ternary
`replacement ? (zeroWidth ? insert : replace) : remove`: the truthiness of the
replacement is tested before the zero-width test. -/
def actionTitle (zeroWidth : Bool) (actual replacement : String) : String :=
  if replacement ≠ "" then
    if zeroWidth then "Insert `" ++ replacement ++ "`"
    else "Replace `" ++ actual ++ "` with `" ++ replacement ++ "`"
  else "Remove `" ++ actual ++ "`"

/-- Actions synthesized for one diagnostic: nothing without a usable
`expected` payload; otherwise one action per string entry (non-string entries
are skipped), each replacing the diagnostic range and marked preferred exactly
when the raw `expected` array has length one. -/
def codeActionsForDiagnostic (docUri : String) (text : List Char)
    (diagnostic : DiagnosticForAction) : List CodeAction :=
  match diagnostic.data with
  | none => []
  | some expected =>
    let actual := getTextRange text diagnostic.range
    expected.filterMap (fun entry =>
      match entry with
      | ExpectedEntry.nonString => none
      | ExpectedEntry.str replacement =>
          some { title := actionTitle (isZeroWidth diagnostic.range) actual replacement
                 editUri := docUri
                 edit := ⟨diagnostic.range, replacement⟩
                 kind := "quickfix"
                 isPreferred := expected.length == 1 })

/-- Model of the code-action handler: `none` when the document is unknown
(distinct from an empty action list), otherwise the actions of all supplied
diagnostics in order. -/
def onCodeAction (document : Option TextDocument) (diagnostics : List DiagnosticForAction) :
    Option (List CodeAction) :=
  match document with
  | none => none
  | some doc =>
      some (diagnostics.flatMap (fun d => codeActionsForDiagnostic doc.uri doc.text.data d))

/-! ## Lemmas on the JavaScript map model -/

theorem jsMapGet_jsMapSet (m : List (String × Int)) (k' : String) (v : Int) (k : String) :
    jsMapGet (jsMapSet m k' v) k = if k' = k then some v else jsMapGet m k := by
  induction m with
  | nil => by_cases h : k' = k <;> simp [jsMapSet, jsMapGet, h]
  | cons kv rest ih =>
      by_cases h1 : kv.1 = k'
      · by_cases h2 : k' = k
        · simp [jsMapSet, jsMapGet, h1, h2]
        · have h3 : ¬ kv.1 = k := fun he => h2 (h1.symm.trans he)
          simp [jsMapSet, jsMapGet, h1, h2, h3]
      · by_cases h2 : kv.1 = k
        · have hne : ¬ k' = k := fun he => h1 (h2.trans he.symm)
          have hne2 : ¬ k = k' := fun he => hne he.symm
          simp [jsMapSet, jsMapGet, h1, h2, hne, hne2]
        · simp [jsMapSet, jsMapGet, h1, h2, ih]

theorem jsMapGet_foldl_snapshot (docs : List TextDocument) (m : List (String × Int))
    (k : String) :
    jsMapGet ((docs.map (fun d => (d.uri, d.version))).foldl
        (fun acc kv => jsMapSet acc kv.1 kv.2) m) k
      = (snapshotVersion docs k).or (jsMapGet m k) := by
  induction docs generalizing m with
  | nil => simp [snapshotVersion]
  | cons d rest ih =>
      simp only [List.map_cons, List.foldl_cons, snapshotVersion]
      rw [ih, jsMapGet_jsMapSet]
      by_cases h : d.uri = k <;>
        cases hs : snapshotVersion rest k <;> simp [h, hs, Option.or]

theorem jsMap_snapshot (docs : List TextDocument) (k : String) :
    jsMapGet (jsMapOfEntries (docs.map (fun d => (d.uri, d.version)))) k
      = snapshotVersion docs k := by
  have h := jsMapGet_foldl_snapshot docs [] k
  simpa [jsMapOfEntries, jsMapGet] using h

theorem snapshotVersion_isSome (docs : List TextDocument) (uri : String)
    (h : uri ∈ docs.map (fun d => d.uri)) : (snapshotVersion docs uri).isSome = true := by
  induction docs with
  | nil => simp at h
  | cons d rest ih =>
      rcases List.mem_map.mp h with ⟨d0, hd0, hu⟩
      rcases List.mem_cons.mp hd0 with h0 | h0
      · subst h0
        cases hs : snapshotVersion rest uri <;>
          simp [snapshotVersion, hs, hu, Option.or]
      · have hmem : uri ∈ rest.map (fun d => d.uri) := List.mem_map.mpr ⟨d0, h0, hu⟩
        cases hs : snapshotVersion rest uri with
        | none => rw [hs] at ih; exact absurd (ih hmem) (by simp)
        | some v => simp [snapshotVersion, hs, Option.or]

/-- C1: for every batch handed to `checkDocuments`, each published
notification carries exactly the version of its URI recorded in the
pre-dispatch snapshot (the last batch entry for that URI), and for a URI that
occurs in the batch that version exists; the dispatch result carries no
version, so nothing newer can be published. -/
theorem c1_publisher_version_snapshot (docs : List TextDocument) (files : List VFileResult)
    (n : PublishParams) (hn : n ∈ checkDocuments docs files) :
    n.version = snapshotVersion docs n.uri
    ∧ (n.uri ∈ docs.map (fun d => d.uri) → ∃ v, n.version = some v) := by
  rcases List.mem_map.mp hn with ⟨file, _, rfl⟩
  refine ⟨by simpa using jsMap_snapshot docs file.lspDocumentUri, ?_⟩
  intro hu
  have hs := snapshotVersion_isSome docs file.lspDocumentUri (by simpa using hu)
  rcases Option.isSome_iff_exists.mp hs with ⟨v, hv⟩
  exact ⟨v, by simpa [hv] using jsMap_snapshot docs file.lspDocumentUri⟩

/-- Witness for C1 at a concrete batch and dispatch result. -/
theorem c1_witness :
    ∃ v, (PublishParams.mk "file:///a/doc.md" (some 2) []).version = some v :=
  (c1_publisher_version_snapshot
    [TextDocument.mk "file:///a/doc.md" 2 "hello"]
    [VFileResult.mk "file:///a/doc.md" []]
    (PublishParams.mk "file:///a/doc.md" (some 2) [])
    (by decide)).2 (by decide)

/-- C3: the translator maps the tri-state fatal flag to severity exactly as
true to Error, false to Warning, absent to Information. -/
theorem c3_severity_mapping (m : VFileMessage) :
    (m.fatal = some true → (vfileMessageToDiagnostic m).severity = DiagnosticSeverity.error)
    ∧ (m.fatal = some false → (vfileMessageToDiagnostic m).severity = DiagnosticSeverity.warning)
    ∧ (m.fatal = none → (vfileMessageToDiagnostic m).severity = DiagnosticSeverity.information) := by
  refine ⟨fun h => ?_, fun h => ?_, fun h => ?_⟩ <;> simp [vfileMessageToDiagnostic, h]

/-- Witness for C3 on three literal message fixtures. -/
theorem c3_witness :
    (vfileMessageToDiagnostic ⟨"a", none, some true, none, none, none, none, none, none⟩).severity
        = DiagnosticSeverity.error
    ∧ (vfileMessageToDiagnostic ⟨"b", none, some false, none, none, none, none, none, none⟩).severity
        = DiagnosticSeverity.warning
    ∧ (vfileMessageToDiagnostic ⟨"c", none, none, none, none, none, none, none, none⟩).severity
        = DiagnosticSeverity.information :=
  ⟨(c3_severity_mapping _).1 rfl,
   (c3_severity_mapping _).2.1 rfl,
   (c3_severity_mapping _).2.2 rfl⟩

/-- C7: the position mapper returns the zero range for an absent location, a
zero-width range at the mapped point when only one of the two points is valid,
and the unreordered mapped range when both are valid; every mapped coordinate
is the engine coordinate minus one. -/
theorem c7_position_mapper :
    (unistLocationToLspRange none = zeroRange)
    ∧ (∀ s e el ec, isValidUnistPoint s = false → e = some ⟨some el, some ec⟩ →
        unistLocationToLspRange (some ⟨s, e⟩)
          = ⟨⟨el - 1, ec - 1⟩, ⟨el - 1, ec - 1⟩⟩)
    ∧ (∀ sl sc e, isValidUnistPoint e = false →
        unistLocationToLspRange (some ⟨some ⟨some sl, some sc⟩, e⟩)
          = ⟨⟨sl - 1, sc - 1⟩, ⟨sl - 1, sc - 1⟩⟩)
    ∧ (∀ sl sc el ec,
        unistLocationToLspRange (some ⟨some ⟨some sl, some sc⟩, some ⟨some el, some ec⟩⟩)
          = ⟨⟨sl - 1, sc - 1⟩, ⟨el - 1, ec - 1⟩⟩) := by
  refine ⟨rfl, ?_, ?_, fun sl sc el ec => rfl⟩
  · rintro s e el ec hs rfl
    match s, hs with
    | none, _ => rfl
    | some ⟨none, _⟩, _ => rfl
    | some ⟨some _, none⟩, _ => rfl
    | some ⟨some _, some _⟩, hs => simp [isValidUnistPoint] at hs
  · rintro sl sc e he
    match e, he with
    | none, _ => rfl
    | some ⟨none, _⟩, _ => rfl
    | some ⟨some _, none⟩, _ => rfl
    | some ⟨some _, some _⟩, he => simp [isValidUnistPoint] at he

/-- Witness for C7 at concrete partial locations. -/
theorem c7_witness :
    unistLocationToLspRange (some ⟨none, some ⟨some 3, some 7⟩⟩) = ⟨⟨2, 6⟩, ⟨2, 6⟩⟩
    ∧ unistLocationToLspRange (some ⟨some ⟨some 4, some 5⟩, none⟩) = ⟨⟨3, 4⟩, ⟨3, 4⟩⟩ := by
  constructor
  · have h := c7_position_mapper.2.1 none (some ⟨some 3, some 7⟩) 3 7 (by decide) rfl
    simpa using h
  · have h := c7_position_mapper.2.2.1 4 5 none (by decide)
    simpa using h

/-! ## Runtime place shapes (C9)

The current translator hands `message.place` to `unist-util-lsp` with no
validity check. At runtime a truthy place can be an object with a `start` key
(the `'start' in place` test is true even when the key holds no value), an
object without one (treated as a point whose coordinates may be missing), or
a truthy non-object, on which the `in` operator itself throws. `fromPoint`
reads `.line` and `.column` of its argument: a missing point value makes the
property read throw a TypeError, and a missing coordinate subtracts to NaN. -/

/-- Runtime JavaScript number produced by the point mapping: an integer, or
NaN from subtracting one from a missing value. -/
inductive JsNum where
  | num (n : Int)
  | nan
deriving Repr, DecidableEq

/-- Point-shaped runtime object: the line and column keys may be absent. -/
structure PointObj where
  line : Option Int
  column : Option Int
deriving Repr, DecidableEq

/-- Runtime shape of a truthy `message.place`. -/
inductive PlaceVal where
  | withStart (start endPoint : Option PointObj)
  | noStart (point : PointObj)
  | primitive
deriving Repr, DecidableEq

/-- JavaScript `value - 1` when the value may be absent: a missing value
subtracts to NaN. -/
def jsSubOne : Option Int → JsNum
  | some n => JsNum.num (n - 1)
  | none => JsNum.nan

/-- Protocol position with runtime numbers (NaN possible). -/
structure JsPosition where
  line : JsNum
  character : JsNum
deriving Repr, DecidableEq

/-- Protocol range with runtime numbers. -/
structure JsRange where
  start : JsPosition
  endPos : JsPosition
deriving Repr, DecidableEq

/-- Runtime `fromPoint` of `unist-util-lsp`: reading a property of a missing
point value throws; otherwise each possibly-missing coordinate is mapped by
`jsSubOne`. -/
def fromPointRT : Option PointObj → Except String JsPosition
  | none => Except.error "TypeError: cannot read properties of undefined"
  | some p => Except.ok ⟨jsSubOne p.line, jsSubOne p.column⟩

/-- Engine message over runtime place shapes; all other fields as in
`VFileMessage`. -/
structure VFileMessageRT where
  reason : String
  place : Option PlaceVal
  fatal : Option Bool
  ruleId : Option String
  source : Option String
  url : Option String
  expected : Option (List ExpectedEntry)
  note : Option String
  cause : Option JsCause
deriving Repr, DecidableEq

/-- Protocol diagnostic whose range carries runtime numbers. -/
structure DiagnosticRT where
  range : JsRange
  message : String
  severity : DiagnosticSeverity
  code : Option String
  source : Option String
  codeDescription : Option String
  data : Option (List ExpectedEntry)
deriving Repr, DecidableEq

/-- The `Diagnostic.create` call and the conditional mutations of the
translator, given an already-computed range: identical to the corresponding
part of `vfileMessageToDiagnostic`. -/
def buildDiagnosticRT (m : VFileMessageRT) (range : JsRange) : DiagnosticRT :=
  let severity :=
    match m.fatal with
    | some true => DiagnosticSeverity.error
    | some false => DiagnosticSeverity.warning
    | none => DiagnosticSeverity.information
  let withCause :=
    match m.cause with
    | some (JsCause.objectWithStack st) => m.reason ++ "\n" ++ st
    | _ => m.reason
  let fullMessage :=
    match m.note with
    | some n => if n = "" then withCause else withCause ++ "\n" ++ n
    | none => withCause
  { range := range
    message := fullMessage
    severity := severity
    code := jsTruthyString m.ruleId
    source := jsTruthyString m.source
    codeDescription := jsTruthyString m.url
    data := m.expected }

/-- Runtime translator of the current server module: the range argument of
`Diagnostic.create` is evaluated first, so a throw inside the place mapping
aborts the whole translation; place handling follows the source with the
unchecked `fromPosition` and `fromPoint` of `unist-util-lsp`. -/
def vfileMessageToDiagnosticRT (m : VFileMessageRT) : Except String DiagnosticRT :=
  let rangeE : Except String JsRange :=
    match m.place with
    | some (PlaceVal.withStart s e) =>
        match fromPointRT s with
        | Except.error err => Except.error err
        | Except.ok ps =>
            match fromPointRT e with
            | Except.error err => Except.error err
            | Except.ok pe => Except.ok ⟨ps, pe⟩
    | some (PlaceVal.noStart p) =>
        match fromPointRT (some p) with
        | Except.error err => Except.error err
        | Except.ok pp => Except.ok ⟨pp, pp⟩
    | some PlaceVal.primitive =>
        Except.error "TypeError: cannot use the in operator on a primitive"
    | none => Except.ok ⟨⟨JsNum.num 0, JsNum.num 0⟩, ⟨JsNum.num 0, JsNum.num 0⟩⟩
  match rangeE with
  | Except.error err => Except.error err
  | Except.ok range => Except.ok (buildDiagnosticRT m range)

/-- Embedding of a well-formed place into the runtime shapes. -/
def placeToRuntime : Place → PlaceVal
  | Place.position s e =>
      PlaceVal.withStart (some ⟨some s.line, some s.column⟩)
        (some ⟨some e.line, some e.column⟩)
  | Place.point p => PlaceVal.noStart ⟨some p.line, some p.column⟩

/-- Embedding of a well-formed message into the runtime shapes. -/
def messageToRuntime (m : VFileMessage) : VFileMessageRT :=
  ⟨m.reason, m.place.map placeToRuntime, m.fatal, m.ruleId, m.source, m.url,
    m.expected, m.note, m.cause⟩

/-- Embedding of an integer protocol position into runtime numbers. -/
def positionToRuntime (p : LspPosition) : JsPosition :=
  ⟨JsNum.num p.line, JsNum.num p.character⟩

/-- Embedding of an integer protocol range into runtime numbers. -/
def rangeToRuntime (r : LspRange) : JsRange :=
  ⟨positionToRuntime r.start, positionToRuntime r.endPos⟩

/-- Embedding of a well-formed diagnostic into the runtime shapes. -/
def diagnosticToRuntime (d : Diagnostic) : DiagnosticRT :=
  ⟨rangeToRuntime d.range, d.message, d.severity, d.code, d.source,
    d.codeDescription, d.data⟩

/-- On well-formed messages the runtime translator never throws and agrees
with the typed translator, so the two models describe the same source
function. -/
theorem runtime_translator_agrees (m : VFileMessage) :
    vfileMessageToDiagnosticRT (messageToRuntime m)
      = Except.ok (diagnosticToRuntime (vfileMessageToDiagnostic m)) := by
  cases hp : m.place with
  | none =>
      simp [messageToRuntime, vfileMessageToDiagnosticRT, vfileMessageToDiagnostic,
        buildDiagnosticRT, diagnosticToRuntime, rangeToRuntime, positionToRuntime,
        hp, fromPointRT, fromPoint, jsSubOne, placeToRuntime, zeroRange]
  | some pl =>
      cases pl <;>
        simp [messageToRuntime, vfileMessageToDiagnosticRT, vfileMessageToDiagnostic,
          buildDiagnosticRT, diagnosticToRuntime, rangeToRuntime, positionToRuntime,
          hp, fromPointRT, fromPoint, jsSubOne, placeToRuntime, zeroRange]

/-- Totality C9 asserts, formalized from the claim's words over the runtime
message shapes: every message, however partial or malformed its optional
fields, translates to a diagnostic without throwing. -/
def c9ClaimedTotality : Prop :=
  ∀ m : VFileMessageRT, ∃ d, vfileMessageToDiagnosticRT m = Except.ok d

/-- C9 counterexample: a place object carrying a start key but no end point
value passes the start test and then throws inside the unchecked point
mapping, so translation is not total over partial locations. -/
theorem c9_counterexample : ¬ c9ClaimedTotality := by
  intro h
  rcases h ⟨"boom", some (PlaceVal.withStart (some ⟨some 1, some 1⟩) none),
      none, none, none, none, none, none, none⟩ with ⟨d, hd⟩
  simp [vfileMessageToDiagnosticRT, fromPointRT] at hd

/-- C9 amended: translation is total and degrades the other optional fields
to the specified defaults exactly on the messages whose location is absent, a
point object, or a position object carrying both point values; a missing
point coordinate maps to NaN instead of the Position Mapper defaults; and a
position object missing its start or end point value, or a truthy non-object
place, makes the translator throw. -/
theorem c9_translator_runtime (m : VFileMessageRT) :
    (m.place = none →
      ∃ d, vfileMessageToDiagnosticRT m = Except.ok d
        ∧ d.range = ⟨⟨JsNum.num 0, JsNum.num 0⟩, ⟨JsNum.num 0, JsNum.num 0⟩⟩)
    ∧ (∀ p, m.place = some (PlaceVal.noStart p) →
        ∃ d, vfileMessageToDiagnosticRT m = Except.ok d
          ∧ d.range = ⟨⟨jsSubOne p.line, jsSubOne p.column⟩,
              ⟨jsSubOne p.line, jsSubOne p.column⟩⟩)
    ∧ (∀ sp ep, m.place = some (PlaceVal.withStart (some sp) (some ep)) →
        ∃ d, vfileMessageToDiagnosticRT m = Except.ok d
          ∧ d.range = ⟨⟨jsSubOne sp.line, jsSubOne sp.column⟩,
              ⟨jsSubOne ep.line, jsSubOne ep.column⟩⟩)
    ∧ (∀ d, vfileMessageToDiagnosticRT m = Except.ok d →
        ((m.ruleId = none ∨ m.ruleId = some "") → d.code = none)
        ∧ ((m.source = none ∨ m.source = some "") → d.source = none)
        ∧ ((m.url = none ∨ m.url = some "") → d.codeDescription = none)
        ∧ (m.expected = none → d.data = none)
        ∧ ((m.note = none ∨ m.note = some "") →
            (∀ st, m.cause ≠ some (JsCause.objectWithStack st)) →
            d.message = m.reason))
    ∧ (∀ sp, m.place = some (PlaceVal.withStart sp none) →
        ∃ err, vfileMessageToDiagnosticRT m = Except.error err)
    ∧ (∀ ep, m.place = some (PlaceVal.withStart none ep) →
        ∃ err, vfileMessageToDiagnosticRT m = Except.error err)
    ∧ (m.place = some PlaceVal.primitive →
        ∃ err, vfileMessageToDiagnosticRT m = Except.error err) := by
  have hdefaults : ∀ range : JsRange,
      ((m.ruleId = none ∨ m.ruleId = some "") → (buildDiagnosticRT m range).code = none)
      ∧ ((m.source = none ∨ m.source = some "") → (buildDiagnosticRT m range).source = none)
      ∧ ((m.url = none ∨ m.url = some "") →
          (buildDiagnosticRT m range).codeDescription = none)
      ∧ (m.expected = none → (buildDiagnosticRT m range).data = none)
      ∧ ((m.note = none ∨ m.note = some "") →
          (∀ st, m.cause ≠ some (JsCause.objectWithStack st)) →
          (buildDiagnosticRT m range).message = m.reason) := by
    intro range
    refine ⟨fun h => ?_, fun h => ?_, fun h => ?_, fun h => ?_, fun h hc => ?_⟩
    · rcases h with h | h <;> simp [buildDiagnosticRT, jsTruthyString, h]
    · rcases h with h | h <;> simp [buildDiagnosticRT, jsTruthyString, h]
    · rcases h with h | h <;> simp [buildDiagnosticRT, jsTruthyString, h]
    · simp [buildDiagnosticRT, h]
    · have hcause :
          (match m.cause with
            | some (JsCause.objectWithStack st) => m.reason ++ "\n" ++ st
            | _ => m.reason) = m.reason := by
        match hm : m.cause with
        | none => rfl
        | some JsCause.nonObject => rfl
        | some JsCause.objectNoStack => rfl
        | some (JsCause.objectWithStack st) => exact absurd hm (hc st)
      rcases h with h | h <;> simp [buildDiagnosticRT, h, hcause]
  refine ⟨?_, ?_, ?_, ?_, ?_, ?_, ?_⟩
  · intro h
    simp only [vfileMessageToDiagnosticRT, h]
    exact ⟨_, rfl, rfl⟩
  · intro p h
    simp only [vfileMessageToDiagnosticRT, h, fromPointRT]
    exact ⟨_, rfl, rfl⟩
  · intro sp ep h
    simp only [vfileMessageToDiagnosticRT, h, fromPointRT]
    exact ⟨_, rfl, rfl⟩
  · intro d hd
    cases hp : m.place with
    | none =>
        simp only [vfileMessageToDiagnosticRT, hp] at hd
        cases hd
        exact hdefaults _
    | some pl =>
        cases pl with
        | withStart s e =>
            cases s with
            | none => simp [vfileMessageToDiagnosticRT, hp, fromPointRT] at hd
            | some sp =>
                cases e with
                | none => simp [vfileMessageToDiagnosticRT, hp, fromPointRT] at hd
                | some ep =>
                    simp only [vfileMessageToDiagnosticRT, hp, fromPointRT] at hd
                    cases hd
                    exact hdefaults _
        | noStart p =>
            simp only [vfileMessageToDiagnosticRT, hp, fromPointRT] at hd
            cases hd
            exact hdefaults _
        | primitive => simp [vfileMessageToDiagnosticRT, hp] at hd
  · intro sp h
    cases sp with
    | none =>
        exact ⟨"TypeError: cannot read properties of undefined",
          by simp [vfileMessageToDiagnosticRT, h, fromPointRT]⟩
    | some p =>
        exact ⟨"TypeError: cannot read properties of undefined",
          by simp [vfileMessageToDiagnosticRT, h, fromPointRT]⟩
  · intro ep h
    exact ⟨"TypeError: cannot read properties of undefined",
      by simp [vfileMessageToDiagnosticRT, h, fromPointRT]⟩
  · intro h
    exact ⟨"TypeError: cannot use the in operator on a primitive",
      by simp [vfileMessageToDiagnosticRT, h]⟩

/-- Witness for C9 on a point object with a missing line: translation
succeeds with a NaN line coordinate. -/
theorem c9_witness :
    ∃ d, vfileMessageToDiagnosticRT
        ⟨"warn", some (PlaceVal.noStart ⟨none, some 5⟩), none, none, none,
          none, none, none, none⟩ = Except.ok d
      ∧ d.range = ⟨⟨JsNum.nan, JsNum.num 4⟩, ⟨JsNum.nan, JsNum.num 4⟩⟩ := by
  obtain ⟨d, hok, hrange⟩ :=
    (c9_translator_runtime
      ⟨"warn", some (PlaceVal.noStart ⟨none, some 5⟩), none, none, none,
        none, none, none, none⟩).2.1 ⟨none, some 5⟩ rfl
  exact ⟨d, hok, by simpa [jsSubOne] using hrange⟩

/-- C4: when the engine callback reports an error, every file of the group
gains exactly one message, that message is fatal and carries the error text,
file identities and order are preserved, and the dispatch settles successfully
instead of rejecting. -/
theorem c4_engine_failure_attached (error : String) (files : List VFileResult) :
    ∃ files2, processWorkspaceSettle (some error) files = Except.ok files2
      ∧ files2.length = files.length
      ∧ files2 = files.map (fun f =>
          { f with messages := f.messages ++ [errorToFatalMessage error] })
      ∧ (∀ f ∈ files,
          VFileResult.mk f.lspDocumentUri (f.messages ++ [errorToFatalMessage error]) ∈ files2)
      ∧ (errorToFatalMessage error).fatal = some true
      ∧ (errorToFatalMessage error).reason = error := by
  refine ⟨_, rfl, by simp [processWorkspaceSettle], rfl, ?_, rfl, rfl⟩
  intro f hf
  exact List.mem_map.mpr ⟨f, hf, rfl⟩

/-- Witness for C4 on a two-file group. -/
theorem c4_witness :
    ∃ files2,
      processWorkspaceSettle (some "engine exploded")
          [VFileResult.mk "file:///a.md" [], VFileResult.mk "file:///b.md" []]
        = Except.ok files2
      ∧ VFileResult.mk "file:///b.md" [errorToFatalMessage "engine exploded"] ∈ files2 := by
  rcases c4_engine_failure_attached "engine exploded"
      [VFileResult.mk "file:///a.md" [], VFileResult.mk "file:///b.md" []] with
    ⟨files2, hok, _, _, hmem, _, _⟩
  exact ⟨files2, hok, by simpa using hmem (VFileResult.mk "file:///b.md" []) (by simp)⟩

/-- C6: with the scoped-configuration capability, a lookup for a scope with no
cached promise issues exactly one fetch and caches the resulting promise; a
second lookup for the same scope (no invalidation removes entries before the
fetch settles) returns the identical state and promise, so no second fetch
happens. -/
theorem c6_configuration_single_fetch (st : SettingsState) (scopeUri : String)
    (h : lookupScope st.documentSettings scopeUri = none) :
    (getDocumentSettings true st scopeUri).1.fetchCount = st.fetchCount + 1
    ∧ getDocumentSettings true (getDocumentSettings true st scopeUri).1 scopeUri
        = getDocumentSettings true st scopeUri
    ∧ (getDocumentSettings true st scopeUri).2 = SettingsResult.pending st.nextPromiseId := by
  have hlook : ∀ l : List (String × Nat), lookupScope l scopeUri = none →
      lookupScope (l ++ [(scopeUri, st.nextPromiseId)]) scopeUri
        = some st.nextPromiseId := by
    intro l
    induction l with
    | nil => intro _; simp [lookupScope]
    | cons kv rest ih =>
        intro hl
        by_cases hk : kv.1 = scopeUri
        · simp [lookupScope, hk] at hl
        · simp [lookupScope, hk] at hl ⊢
          exact ih hl
  simp only [getDocumentSettings, h]
  refine ⟨rfl, ?_, rfl⟩
  simp [getDocumentSettings, hlook st.documentSettings h]

/-- Witness for C6 from the empty cache. -/
theorem c6_witness :
    (getDocumentSettings true (SettingsState.mk [] 0 0) "scope1").1.fetchCount = 1
    ∧ getDocumentSettings true
          (getDocumentSettings true (SettingsState.mk [] 0 0) "scope1").1 "scope1"
        = getDocumentSettings true (SettingsState.mk [] 0 0) "scope1" := by
  have h := c6_configuration_single_fetch (SettingsState.mk [] 0 0) "scope1" (by decide)
  exact ⟨h.1, h.2.1⟩

/-! ## Lemmas on the length-descending sort used by root resolution -/

theorem mem_insertByLength (x a : String) (l : List String) :
    a ∈ insertByLength x l ↔ a = x ∨ a ∈ l := by
  induction l with
  | nil => simp [insertByLength]
  | cons y ys ih =>
      by_cases h : y.length < x.length
      · simp [insertByLength, h]
      · simp only [insertByLength, if_neg h, List.mem_cons, ih]
        tauto

theorem pairwise_insertByLength (x : String) (l : List String)
    (h : l.Pairwise (fun a b => b.length ≤ a.length)) :
    (insertByLength x l).Pairwise (fun a b => b.length ≤ a.length) := by
  induction l with
  | nil => simp [insertByLength]
  | cons y ys ih =>
      rcases List.pairwise_cons.mp h with ⟨hy, hys⟩
      by_cases hlt : y.length < x.length
      · rw [insertByLength, if_pos hlt]
        refine List.pairwise_cons.mpr ⟨?_, h⟩
        intro b hb
        rcases List.mem_cons.mp hb with rfl | hb
        · exact Nat.le_of_lt hlt
        · exact le_trans (hy b hb) (Nat.le_of_lt hlt)
      · rw [insertByLength, if_neg hlt]
        refine List.pairwise_cons.mpr ⟨?_, ih hys⟩
        intro b hb
        rcases (mem_insertByLength x b ys).mp hb with rfl | hb
        · exact Nat.le_of_not_lt hlt
        · exact hy b hb

theorem mem_sortAux (l acc : List String) (a : String) :
    a ∈ l.foldl (fun acc x => insertByLength x acc) acc ↔ a ∈ l ∨ a ∈ acc := by
  induction l generalizing acc with
  | nil => simp
  | cons y ys ih =>
      simp only [List.foldl_cons, ih, mem_insertByLength, List.mem_cons]
      tauto

theorem mem_sortByLengthDesc (l : List String) (a : String) :
    a ∈ sortByLengthDesc l ↔ a ∈ l := by
  simpa [sortByLengthDesc] using mem_sortAux l [] a

theorem sortAux_pairwise (l acc : List String)
    (hacc : acc.Pairwise (fun a b => b.length ≤ a.length)) :
    (l.foldl (fun acc x => insertByLength x acc) acc).Pairwise
      (fun a b => b.length ≤ a.length) := by
  induction l generalizing acc with
  | nil => simpa using hacc
  | cons y ys ih => exact ih _ (pairwise_insertByLength y acc hacc)

theorem sortByLengthDesc_pairwise (l : List String) :
    (sortByLengthDesc l).Pairwise (fun a b => b.length ≤ a.length) :=
  sortAux_pairwise l [] (by simp)

theorem find?_length_max (p : String → Bool) (l : List String)
    (hl : l.Pairwise (fun a b => b.length ≤ a.length)) (r : String)
    (hr : l.find? p = some r) :
    ∀ x ∈ l, p x = true → x.length ≤ r.length := by
  induction l with
  | nil => simp at hr
  | cons y ys ih =>
      rcases List.pairwise_cons.mp hl with ⟨hy, hys⟩
      intro x hx hpx
      by_cases hpy : p y = true
      · have hry : r = y := by
          rw [List.find?_cons_of_pos ys hpy] at hr
          exact (Option.some_inj.mp hr).symm
        subst hry
        rcases List.mem_cons.mp hx with rfl | hx
        · exact le_refl _
        · exact hy x hx
      · have hpyf : p y = false := eq_false_of_ne_true hpy
        have hr' : ys.find? p = some r := by
          simpa [List.find?, hpyf] using hr
        rcases List.mem_cons.mp hx with rfl | hx
        · exact absurd hpx hpy
        · exact ih hys hr' x hx hpx

/-- C2: resolution against a non-empty workspace set. The spec example
resolves to the longest root; in general a successful resolution returns the
normalization of a registered root that is a path-ancestor of the document URI
and is at least as long as every other matching normalized root; routed
documents carry exactly their resolved root, and a document whose resolution
fails is excluded from the dispatch cycle. -/
theorem c2_workspace_root_resolution :
    (resolveRoot ["/a", "/a/b"] "/a/b/c/file.md" = some "/a/b")
    ∧ (∀ ws uri r, ws ≠ [] → resolveRoot ws uri = some r →
        (∃ w ∈ ws, stripTrailingSep w = r)
        ∧ jsStartsWith uri (r ++ "/") = true
        ∧ (∀ w ∈ ws, jsStartsWith uri (stripTrailingSep w ++ "/") = true →
            (stripTrailingSep w).length ≤ r.length))
    ∧ (∀ ws docs p, p ∈ routeDocuments ws docs → resolveRoot ws p.1.uri = some p.2)
    ∧ (∀ ws docs d, d ∈ docs → resolveRoot ws d.uri = none →
        ∀ p ∈ routeDocuments ws docs, p.1.uri ≠ d.uri) := by
  have hroute : ∀ ws docs p, p ∈ routeDocuments ws docs →
      resolveRoot ws p.1.uri = some p.2 := by
    intro ws docs p hp
    rcases List.mem_filterMap.mp hp with ⟨d, _, hmap⟩
    cases hres : resolveRoot ws d.uri with
    | none => rw [hres] at hmap; simp at hmap
    | some r =>
        rw [hres] at hmap
        simp only [Option.map] at hmap
        cases hmap
        simpa using hres
  refine ⟨by decide, ?_, hroute, ?_⟩
  · intro ws uri r _ hr
    unfold resolveRoot at hr
    have hmem : r ∈ sortByLengthDesc (ws.map stripTrailingSep) :=
      List.mem_of_find?_eq_some hr
    have hmem2 : r ∈ ws.map stripTrailingSep := (mem_sortByLengthDesc _ r).mp hmem
    rcases List.mem_map.mp hmem2 with ⟨w, hw, hwr⟩
    refine ⟨⟨w, hw, hwr⟩, by simpa using List.find?_some hr, ?_⟩
    intro w' hw' hstart
    exact find?_length_max _ _ (sortByLengthDesc_pairwise _) r hr (stripTrailingSep w')
      ((mem_sortByLengthDesc _ _).mpr (List.mem_map.mpr ⟨w', hw', rfl⟩)) hstart
  · intro ws docs d _ hnone p hp heq
    have h := hroute ws docs p hp
    rw [heq, hnone] at h
    exact Option.noConfusion h

/-- Witness for C2: the spec fixture, via the general conjunct. -/
theorem c2_witness : jsStartsWith "/a/b/c/file.md" ("/a/b" ++ "/") = true :=
  ((c2_workspace_root_resolution.2.1 ["/a", "/a/b"] "/a/b/c/file.md" "/a/b"
    (by decide) (by decide)).2).1

/-! ## Code action titles: claimed order versus source order -/

/-- Title rule in the order the claim states it (zero-width test first, then
the empty-replacement test). Defined from the claim's words, to be compared
with `actionTitle`, which follows the source. -/
def c5ClaimedTitle (zeroWidth : Bool) (actual replacement : String) : String :=
  if zeroWidth then "Insert `" ++ replacement ++ "`"
  else if replacement = "" then "Remove `" ++ actual ++ "`"
  else "Replace `" ++ actual ++ "` with `" ++ replacement ++ "`"

/-- Title rule in the order the source applies it: the empty-replacement test
comes first, then the zero-width test. This is the amended form of the
claim's title rule. -/
def amendedActionTitle (zeroWidth : Bool) (actual replacement : String) : String :=
  if replacement = "" then "Remove `" ++ actual ++ "`"
  else if zeroWidth then "Insert `" ++ replacement ++ "`"
  else "Replace `" ++ actual ++ "` with `" ++ replacement ++ "`"

theorem actionTitle_eq_amended (zeroWidth : Bool) (actual replacement : String) :
    actionTitle zeroWidth actual replacement
      = amendedActionTitle zeroWidth actual replacement := by
  by_cases h : replacement = "" <;> cases zeroWidth <;>
    simp [actionTitle, amendedActionTitle, h]

/-- C5 counterexample: on a zero-width range with the single candidate `""`,
the handler titles the action with the remove wording, while the claim's rule
order demands the insert wording. -/
theorem c5_counterexample :
    onCodeAction (some (TextDocument.mk "file:///a.md" 1 "abc"))
        [DiagnosticForAction.mk ⟨⟨0, 1⟩, ⟨0, 1⟩⟩ (some [ExpectedEntry.str ""])]
      = some [CodeAction.mk "Remove ``" "file:///a.md"
          (TextEditR.mk ⟨⟨0, 1⟩, ⟨0, 1⟩⟩ "") "quickfix" true]
    ∧ c5ClaimedTitle (isZeroWidth ⟨⟨0, 1⟩, ⟨0, 1⟩⟩)
        (getTextRange "abc".data ⟨⟨0, 1⟩, ⟨0, 1⟩⟩) "" = "Insert ``"
    ∧ ("Remove ``" : String) ≠ "Insert ``" :=
  ⟨by decide, by decide, by decide⟩

/-- C5 amended: for every diagnostic with a replacement-hint list and every
string candidate in it, the handler emits a quick-fix action whose edit
replaces the diagnostic range with the candidate, titled with the
empty-replacement test applied before the zero-width test, and marked
preferred when the candidate list has exactly one entry. -/
theorem c5_code_actions (doc : TextDocument) (diags : List DiagnosticForAction)
    (d : DiagnosticForAction) (hd : d ∈ diags) (exp : List ExpectedEntry)
    (hdata : d.data = some exp) (r : String) (hr : ExpectedEntry.str r ∈ exp) :
    ∃ acts, onCodeAction (some doc) diags = some acts
      ∧ ∃ a ∈ acts,
          a.edit = TextEditR.mk d.range r
          ∧ a.editUri = doc.uri
          ∧ a.kind = "quickfix"
          ∧ a.title = amendedActionTitle (isZeroWidth d.range)
              (getTextRange doc.text.data d.range) r
          ∧ (exp.length = 1 → a.isPreferred = true) := by
  refine ⟨_, rfl, ?_⟩
  refine ⟨{ title := actionTitle (isZeroWidth d.range)
              (getTextRange doc.text.data d.range) r
            editUri := doc.uri
            edit := TextEditR.mk d.range r
            kind := "quickfix"
            isPreferred := exp.length == 1 }, ?_, rfl, rfl, rfl,
          actionTitle_eq_amended _ _ _, fun h => by simp [h]⟩
  refine List.mem_flatMap.mpr ⟨d, hd, ?_⟩
  simp only [codeActionsForDiagnostic, hdata]
  exact List.mem_filterMap.mpr ⟨ExpectedEntry.str r, hr, rfl⟩

/-- Witness for C5 on the spec fixture: replacing `hello` with `Hello`. -/
theorem c5_witness :
    ∃ acts,
      onCodeAction (some (TextDocument.mk "file:///d.md" 1 "## hello"))
          [DiagnosticForAction.mk ⟨⟨0, 3⟩, ⟨0, 8⟩⟩ (some [ExpectedEntry.str "Hello"])]
        = some acts
      ∧ ∃ a ∈ acts, a.title = amendedActionTitle false "hello" "Hello"
          ∧ a.isPreferred = true := by
  obtain ⟨acts, hacts, a, ha, _, _, _, htitle, hpref⟩ :=
    c5_code_actions (TextDocument.mk "file:///d.md" 1 "## hello")
      [DiagnosticForAction.mk ⟨⟨0, 3⟩, ⟨0, 8⟩⟩ (some [ExpectedEntry.str "Hello"])]
      (DiagnosticForAction.mk ⟨⟨0, 3⟩, ⟨0, 8⟩⟩ (some [ExpectedEntry.str "Hello"]))
      (by simp) [ExpectedEntry.str "Hello"] rfl "Hello" (by simp)
  refine ⟨acts, hacts, a, ha, ?_, hpref rfl⟩
  rw [htitle,
    show isZeroWidth ⟨⟨0, 3⟩, ⟨0, 8⟩⟩ = false from by decide,
    show getTextRange ("## hello" : String).data ⟨⟨0, 3⟩, ⟨0, 8⟩⟩ = "hello" from by decide]

/-! ## Non-string replacement entries (C10) -/

theorem length_filterMap_of_skip (f : ExpectedEntry → Option CodeAction)
    (hn : f ExpectedEntry.nonString = none)
    (hs : ∀ s, (f (ExpectedEntry.str s)).isSome = true)
    (l : List ExpectedEntry) :
    (l.filterMap f).length = (l.filter (fun e => match e with
      | ExpectedEntry.str _ => true
      | ExpectedEntry.nonString => false)).length := by
  induction l with
  | nil => rfl
  | cons e es ih =>
      cases e with
      | str s =>
          rcases Option.isSome_iff_exists.mp (hs s) with ⟨a, ha⟩
          simp [List.filterMap_cons, ha, ih]
      | nonString => simp [List.filterMap_cons, hn, ih]

/-- C10: non-string entries of the replacement-hint list yield no action and
no error, while the preferred flag is computed from the raw list length; in
particular a list of one string and one non-string entry yields exactly one
action and it is not preferred. -/
theorem c10_nonstring_entries (docUri : String) (text : List Char) (r : LspRange)
    (exp : List ExpectedEntry) :
    (codeActionsForDiagnostic docUri text (DiagnosticForAction.mk r (some exp))).length
        = (exp.filter (fun e => match e with
            | ExpectedEntry.str _ => true
            | ExpectedEntry.nonString => false)).length
    ∧ (∀ a ∈ codeActionsForDiagnostic docUri text (DiagnosticForAction.mk r (some exp)),
        a.isPreferred = (exp.length == 1))
    ∧ (∀ s, (codeActionsForDiagnostic docUri text
          (DiagnosticForAction.mk r (some [ExpectedEntry.str s, ExpectedEntry.nonString]))).length = 1
        ∧ ∀ a ∈ codeActionsForDiagnostic docUri text
            (DiagnosticForAction.mk r (some [ExpectedEntry.str s, ExpectedEntry.nonString])),
            a.isPreferred = false) := by
  refine ⟨?_, ?_, ?_⟩
  · simp only [codeActionsForDiagnostic]
    refine length_filterMap_of_skip _ ?_ (fun s => ?_) exp <;> rfl
  · intro a ha
    simp only [codeActionsForDiagnostic] at ha
    rcases List.mem_filterMap.mp ha with ⟨e, _, he⟩
    cases e with
    | str s => cases Option.some_inj.mp he; rfl
    | nonString => exact Option.noConfusion he
  · intro s
    constructor
    · simp [codeActionsForDiagnostic, List.filterMap_cons]
    · intro a ha
      simp only [codeActionsForDiagnostic] at ha
      rcases List.mem_filterMap.mp ha with ⟨e, he, hfe⟩
      cases e with
      | str s2 => cases Option.some_inj.mp hfe; rfl
      | nonString => exact Option.noConfusion hfe

/-- Witness for C10 at a concrete diagnostic with a mixed hint list. -/
theorem c10_witness :
    (codeActionsForDiagnostic "file:///a.md" ("abc" : String).data
        (DiagnosticForAction.mk ⟨⟨0, 0⟩, ⟨0, 1⟩⟩
          (some [ExpectedEntry.str "x", ExpectedEntry.nonString]))).length = 1 :=
  ((c10_nonstring_entries "file:///a.md" ("abc" : String).data ⟨⟨0, 0⟩, ⟨0, 1⟩⟩
    [ExpectedEntry.str "x", ExpectedEntry.nonString]).2.2 "x").1

/-! ## Formatting (C8): claimed behaviour and amended behaviour -/

/-- Behaviour C8 asserts, formalized from the claim's words: no edit exactly
when the document is unknown or the serialized result equals the current
text, and otherwise exactly one full-span edit. -/
def c8ClaimedBehavior : Prop :=
  ∀ (document : Option TextDocument) (processed : Option String),
    ((document = none ∨ ∃ doc, document = some doc ∧ processed = some doc.text) →
      onDocumentFormatting document processed = none)
    ∧ (¬ (document = none ∨ ∃ doc, document = some doc ∧ processed = some doc.text) →
      ∃ doc result, document = some doc ∧ processed = some result ∧
        onDocumentFormatting document processed =
          some [TextEditR.mk ⟨⟨0, 0⟩, positionAt doc.text.data doc.text.data.length⟩ result])

/-- C8 counterexample: a known document whose dispatch yields no result file
gets no edit, although the claim's two no-edit cases both fail there. -/
theorem c8_counterexample : ¬ c8ClaimedBehavior := by
  intro h
  have h2 := (h (some (TextDocument.mk "file:///a.md" 1 "abc")) none).2 ?_
  · rcases h2 with ⟨doc, result, _, hres, _⟩
    exact Option.noConfusion hres
  · rintro (hdoc | ⟨doc, _, htext⟩)
    · exact Option.noConfusion hdoc
    · exact Option.noConfusion htext

/-- C8 amended: the formatting handler returns no edit exactly when the
document is unknown, the dispatch returned no result file for it, or the
serialized result equals the current text; otherwise it returns exactly one
edit replacing the span from (0,0) to the position at the end of the text
with the serialized result. -/
theorem c8_formatting_amended (document : Option TextDocument) (processed : Option String) :
    (onDocumentFormatting document processed = none ↔
      (document = none ∨ processed = none
        ∨ ∃ doc, document = some doc ∧ processed = some doc.text))
    ∧ (∀ doc result, document = some doc → processed = some result →
        result ≠ doc.text →
        onDocumentFormatting document processed =
          some [TextEditR.mk ⟨⟨0, 0⟩, positionAt doc.text.data doc.text.data.length⟩
            result]) := by
  cases document with
  | none => simp [onDocumentFormatting]
  | some doc =>
      cases processed with
      | none => simp [onDocumentFormatting]
      | some result =>
          by_cases h : result = doc.text
          · subst h
            simp [onDocumentFormatting]
          · constructor
            · simp [onDocumentFormatting, h]
            · rintro doc2 result2 hdoc2 hres2 hne
              cases hdoc2
              cases hres2
              simp [onDocumentFormatting, h]

/-- Witness for C8 on the spec's formatting scenario. -/
theorem c8_witness :
    onDocumentFormatting
        (some (TextDocument.mk "file:///a.md" 1 "#   Hello world!\n"))
        (some "# Hello world!\n")
      = some [TextEditR.mk
          ⟨⟨0, 0⟩, positionAt ("#   Hello world!\n" : String).data
            ("#   Hello world!\n" : String).data.length⟩
          "# Hello world!\n"] :=
  (c8_formatting_amended _ _).2 _ _ rfl rfl (by decide)

end UnifiedLS
